import Mathlib

/-!
Shallow embedding of the schema-driven parsing engine of the ConfluxWeb
repository (the `Parser` / `ArrayParser` / `ObjectParser` classes and the
`parse` compiler), together with the `Hex` string utilities of
`conflux-web-utils/src/type.js`.  JavaScript values are modelled by the
inductive `JSVal` (with an explicit `undefined` constructor, since the engine
branches on `value === undefined`), objects by ordered association lists of
own properties, and thrown exceptions by `Except` with an error taxonomy
matching the throw sites of the source.
-/

namespace Conflux

/-- A JavaScript runtime value, as far as the parsing engine observes it.
Plain objects are ordered lists of own properties; a stored `undefined` value is
distinct from a missing key, exactly as in JavaScript. -/
inductive JSVal where
  | undefined
  | null
  | bool (b : Bool)
  | num (n : Int)
  | str (s : String)
  | arr (elems : List JSVal)
  | obj (fields : List (String × JSVal))

/-- Failure taxonomy: one constructor per throw site of the engine, plus
`leaf` for exceptions raised by caller-supplied transform functions. -/
inductive PError where
  | missingRequired
  | typeMismatch
  | validationFailed
  | unsupportedSchemaType
  | leaf (msg : String)
deriving DecidableEq, Repr

/-- The `Parser` class: a transform function `func`, the `required` flag and
the cached `default` (`this.default`, already transformed at construction;
`undefined` when no default was supplied). -/
structure Parser where
  func : JSVal → Except PError JSVal
  required : Bool
  default : JSVal

/-- Property read `object[key]`: first matching own property, `undefined`
when the key is missing. -/
def getProp (o : List (String × JSVal)) (key : String) : JSVal :=
  match o with
  | [] => .undefined
  | (k, v) :: rest => if k = key then v else getProp rest key

/-- Own-property test `hasOwnProperty`. -/
def hasProp (o : List (String × JSVal)) (key : String) : Bool :=
  match o with
  | [] => false
  | (k, _) :: rest => k == key || hasProp rest key

/-- Property write `object[key] = v`: replace in place when the key exists,
append otherwise. -/
def setProp (o : List (String × JSVal)) (key : String) (v : JSVal) : List (String × JSVal) :=
  match o with
  | [] => [(key, v)]
  | (k, w) :: rest => if k = key then (key, v) :: rest else (k, w) :: setProp rest key v

/-- Body of `call` after the cached default has been substituted for an
absent input: if the value is still absent, fail when `required`, otherwise
return absent; otherwise apply the transform. -/
def Parser.callAfterDefault (p : Parser) (v : JSVal) : Except PError JSVal :=
  match v with
  | .undefined => if p.required then .error .missingRequired else .ok .undefined
  | _ => p.func v

/-- Method `call` of `Parser`: substitute the cached default for an absent
value, then run the rest of the body. -/
def Parser.call (p : Parser) (value : JSVal) : Except PError JSVal :=
  match value with
  | .undefined => p.callAfterDefault p.default
  | _ => p.callAfterDefault value

/-- Constructor options `{ required = false, default: _default }`. -/
structure Options where
  required : Bool := false
  default : JSVal := .undefined

/-- The `Parser` constructor: `this.default` is `func(_default)` when a raw
default was supplied (so a failing transform fails construction), `undefined`
otherwise. -/
def Parser.make (func : JSVal → Except PError JSVal) (o : Options) : Except PError Parser :=
  match o.default with
  | .undefined => .ok (Parser.mk func o.required .undefined)
  | d =>
    match func d with
    | .error e => .error e
    | .ok dv => .ok (Parser.mk func o.required dv)

/-- Combinator `parse`: `new Parser(value => func(this(value)))` —
note the new parser is built with no options (not required, no default). -/
def Parser.parse (p : Parser) (func : JSVal → Except PError JSVal) : Parser :=
  Parser.mk
    (fun value =>
      match p.call value with
      | .error e => .error e
      | .ok r => func r)
    false .undefined

/-- Combinator `validate`: run the receiver, then require the
predicate to hold of the result (`func` returns a JS value; only its
truthiness matters, modelled as `Bool`). -/
def Parser.validate (p : Parser) (func : JSVal → Bool) : Parser :=
  Parser.mk
    (fun value =>
      match p.call value with
      | .error e => .error e
      | .ok r => if func r then .ok r else .error .validationFailed)
    false .undefined

/-- Combinator `or`: attempt the receiver and on any thrown failure
apply the fallback function to the original raw value. -/
def Parser.or (p : Parser) (func : JSVal → Except PError JSVal) : Parser :=
  Parser.mk
    (fun value =>
      match p.call value with
      | .ok r => .ok r
      | .error _ => func value)
    false .undefined

/-- Semantics of `array.map(func)` under exceptions: fail-fast left-to-right
map, no partial result. -/
def mapExcept (f : JSVal → Except PError JSVal) : List JSVal → Except PError (List JSVal)
  | [] => .ok []
  | x :: xs =>
    match f x with
    | .error e => .error e
    | .ok y =>
      match mapExcept f xs with
      | .error e => .error e
      | .ok ys => .ok (y :: ys)

/-- The transform installed by the `ArrayParser` constructor: reject
non-arrays, otherwise map the element parser over every entry. -/
def arrTransform (func : Parser) (value : JSVal) : Except PError JSVal :=
  match value with
  | .arr xs =>
    match mapExcept func.call xs with
    | .error e => .error e
    | .ok ys => .ok (.arr ys)
  | _ => .error .typeMismatch

/-- Constructor of `ArrayParser`: `super(array => ..., options)`. -/
def ArrayParser.make (func : Parser) (o : Options) : Except PError Parser :=
  Parser.make (arrTransform func) o

/-- Semantics of `lodash.mapValues(keyToFunc, (func, key) => func(object[key]))`
under exceptions: build the picked object in schema-key order,
propagating the first field failure. -/
def mapValuesExcept (keyToFunc : List (String × Parser)) (o : List (String × JSVal)) :
    Except PError (List (String × JSVal)) :=
  match keyToFunc with
  | [] => .ok []
  | (k, p) :: rest =>
    match p.call (getProp o k) with
    | .error e => .error e
    | .ok v =>
      match mapValuesExcept rest o with
      | .error e => .error e
      | .ok vs => .ok ((k, v) :: vs)

/-- Semantics of `lodash.defaults(dest, src)`: for every key of `src` whose value in
`dest` reads as `undefined`, assign `src`'s value into `dest`. -/
def defaultsStep (d : List (String × JSVal)) (kv : String × JSVal) : List (String × JSVal) :=
  match getProp d kv.1 with
  | .undefined => setProp d kv.1 kv.2
  | _ => d

/-- Semantics of `lodash.defaults(dest, src)` as a left fold of `defaultsStep`
over the keys of `src`. -/
def defaults (dest src : List (String × JSVal)) : List (String × JSVal) :=
  src.foldl defaultsStep dest

/-- The transform installed by the `ObjectParser` constructor: reject
non-plain-objects, otherwise `defaults(mapValues(keyToFunc, ...), object)`. -/
def objTransform (keyToFunc : List (String × Parser)) (value : JSVal) : Except PError JSVal :=
  match value with
  | .obj o =>
    match mapValuesExcept keyToFunc o with
    | .error e => .error e
    | .ok picked => .ok (.obj (defaults picked o))
  | _ => .error .typeMismatch

/-- Constructor of `ObjectParser`: `super(object => ..., options)`. -/
def ObjectParser.make (keyToFunc : List (String × Parser)) (o : Options) : Except PError Parser :=
  Parser.make (objTransform keyToFunc) o

/-- A schema descriptor: an already-built Parser, a plain transform
function, a one-element array literal, or a plain object literal. -/
inductive Schema where
  | parser (p : Parser)
  | fn (f : JSVal → Except PError JSVal)
  | arr (s : Schema)
  | obj (fields : List (String × Schema))

mutual

/-- The module-level `parse(schema, options)` compiler, dispatching on the
descriptor's shape; nested descriptors are compiled with default options.
The source's first guard `schema instanceof Parser` never matches at
runtime: the `Parser` constructor returns a `Proxy` over
`this.call.bind(this)`, a bound function whose prototype chain is
`Function.prototype → Object.prototype` and never contains
`Parser.prototype` (the handler installs no `getPrototypeOf` trap).  An
already-built Parser is therefore dispatched by the `lodash.isFunction`
test (the callable proxy has `typeof === 'function'`) and re-wrapped as
`new Parser(schema, options)` — a fresh leaf whose transform is the old
parser's `call`, with the options applied. -/
def parse : Schema → Options → Except PError Parser
  | .parser p, o => Parser.make p.call o
  | .fn f, o => Parser.make f o
  | .arr s, o =>
    match parse s {} with
    | .error e => .error e
    | .ok ep => ArrayParser.make ep o
  | .obj fields, o =>
    match parseFields fields with
    | .error e => .error e
    | .ok ps => ObjectParser.make ps o

/-- Compilation of every sub-descriptor: `lodash.mapValues(schema, v => parse(v))`,
in key order. -/
def parseFields : List (String × Schema) → Except PError (List (String × Parser))
  | [] => .ok []
  | (k, s) :: rest =>
    match parse s {} with
    | .error e => .error e
    | .ok p =>
      match parseFields rest with
      | .error e => .error e
      | .ok ps => .ok ((k, p) :: ps)

end

/-!
`Hex` utilities of `conflux-web-utils/src/type.js`: the canonical-hex-string
test (regex `^0x([0-9a-f][0-9a-f])*$`), the `Hex` formatter on the input
shapes the verification needs (null, strings, buffers), and `Hex.toBuffer`.
Buffers are modelled as lists of byte values.
-/

/-- The sixteen characters of the regex class `[0-9a-f]`, in order. -/
def hexDigitList : List Char := "0123456789abcdef".data

/-- Membership of a character in the regex class `[0-9a-f]`. -/
def isHexDigit (c : Char) : Bool :=
  decide (c ∈ hexDigitList)

/-- The regex body `([0-9a-f][0-9a-f])*`: an even-length run of lowercase
hex digits. -/
def isHexPairs : List Char → Bool
  | [] => true
  | c1 :: c2 :: rest => isHexDigit c1 && isHexDigit c2 && isHexPairs rest
  | [_] => false

/-- The test `Hex.isHex`, i.e. `/^0x([0-9a-f][0-9a-f])*$/.test(hex)`. -/
def Hex.isHex (s : String) : Bool :=
  match s.data with
  | c1 :: c2 :: rest => c1 == '0' && c2 == 'x' && isHexPairs rest
  | _ => false

/-- Numeric value of a lowercase hex digit character. -/
def hexVal : Char → Nat
  | '0' => 0 | '1' => 1 | '2' => 2 | '3' => 3 | '4' => 4
  | '5' => 5 | '6' => 6 | '7' => 7 | '8' => 8 | '9' => 9
  | 'a' => 10 | 'b' => 11 | 'c' => 12 | 'd' => 13 | 'e' => 14
  | _ => 15

/-- Lowercase hex digit character of a nibble value. -/
def hexChar : Nat → Char
  | 0 => '0' | 1 => '1' | 2 => '2' | 3 => '3' | 4 => '4'
  | 5 => '5' | 6 => '6' | 7 => '7' | 8 => '8' | 9 => '9'
  | 10 => 'a' | 11 => 'b' | 12 => 'c' | 13 => 'd' | 14 => 'e'
  | _ => 'f'

/-- Semantics of `Buffer.from(digits, 'hex')`: consume the digit characters two at a
time, each pair becoming one byte. -/
def hexPairsToBytes : List Char → List Nat
  | c1 :: c2 :: rest => (16 * hexVal c1 + hexVal c2) :: hexPairsToBytes rest
  | _ => []

/-- Semantics of `buffer.toString('hex')` as a character list: two lowercase hex digits
per byte, in order. -/
def bytesToHexChars : List Nat → List Char
  | [] => []
  | b :: bs => hexChar (b / 16) :: hexChar (b % 16) :: bytesToHexChars bs

/-- Inputs of the `Hex` formatter covered by this development: `null`,
strings and buffers (the number, BigNumber and Date branches of the source
are not needed by any claim). -/
inductive HVal where
  | null
  | str (s : String)
  | buf (bytes : List Nat)

/-- The `Hex` formatter on the modelled input shapes, transcribed branch by
branch: `null` gives `"0x"`; a string already in canonical form is returned
unchanged, otherwise it is lowercased, `0x`-prefixed, left-padded to even
length and re-checked; a buffer is hex-encoded behind `"0x"`. -/
def Hex : HVal → Except String String
  | .null => .ok "0x"
  | .str value =>
    if Hex.isHex value then .ok value
    else
      let s1 := value.toLower
      let s2 := if s1.startsWith "0x" then s1 else "0x" ++ s1
      let s3 := if s2.length % 2 = 1 then "0x0" ++ s2.drop 2 else s2
      if Hex.isHex s3 then .ok s3
      else .error "do not match hex string"
  | .buf bytes => .ok ("0x" ++ String.mk (bytesToHexChars bytes))

/-- The decoder `Hex.toBuffer`: reject non-canonical strings, otherwise decode the
digits after the `0x` two at a time. -/
def Hex.toBuffer (hex : String) : Except String (List Nat) :=
  if Hex.isHex hex then .ok (hexPairsToBytes (hex.data.drop 2))
  else .error "do not match hex string"

/-- A concrete identity leaf transform, used to instantiate theorems. -/
def idF : JSVal → Except PError JSVal := fun v => .ok v

/-- A concrete non-idempotent leaf transform (adds one to a number), used to
instantiate theorems. -/
def succNum : JSVal → Except PError JSVal := fun v =>
  match v with
  | .num n => .ok (.num (n + 1))
  | _ => .error (.leaf "expected a number")

/-! ### General lemmas about the embedding -/

/-- On a present value, `call` is exactly the transform. -/
theorem Parser.call_of_ne_undef (p : Parser) (x : JSVal) (hx : x ≠ .undefined) :
    p.call x = p.func x := by
  cases x <;> first | exact absurd rfl hx | rfl

/-- Reading a key that does not occur in the property list gives `undefined`. -/
theorem getProp_of_not_mem (o : List (String × JSVal)) (key : String)
    (h : key ∉ o.map Prod.fst) : getProp o key = .undefined := by
  induction o with
  | nil => rfl
  | cons kv rest ih =>
    obtain ⟨k, v⟩ := kv
    simp only [List.map_cons, List.mem_cons, not_or] at h
    have hk : ¬k = key := fun hkey => h.1 hkey.symm
    simp [getProp, hk, ih h.2]

/-- Writing a key that does not occur in the property list appends it. -/
theorem setProp_of_not_mem (o : List (String × JSVal)) (key : String) (v : JSVal)
    (h : key ∉ o.map Prod.fst) : setProp o key v = o ++ [(key, v)] := by
  induction o with
  | nil => rfl
  | cons kv rest ih =>
    obtain ⟨k, w⟩ := kv
    simp only [List.map_cons, List.mem_cons, not_or] at h
    have hk : ¬k = key := fun hkey => h.1 hkey.symm
    simp [setProp, hk, ih h.2]

/-- A `defaults` step skips a key whose current value is present. -/
theorem defaultsStep_of_present (d : List (String × JSVal)) (kv : String × JSVal)
    (h : getProp d kv.1 ≠ .undefined) : defaultsStep d kv = d := by
  rcases hg : getProp d kv.1
  case undefined => exact absurd hg h
  all_goals simp [defaultsStep, hg]

/-- A `defaults` step assigns a key whose current value reads as absent. -/
theorem defaultsStep_of_absent (d : List (String × JSVal)) (kv : String × JSVal)
    (h : getProp d kv.1 = .undefined) : defaultsStep d kv = setProp d kv.1 kv.2 := by
  simp [defaultsStep, h]

/-- Merging a source whose keys are fresh for the destination appends all of
its entries in order. -/
theorem defaults_of_fresh (src : List (String × JSVal)) :
    ∀ d : List (String × JSVal), (src.map Prod.fst).Nodup →
      (∀ kv ∈ src, kv.1 ∉ d.map Prod.fst) →
      defaults d src = d ++ src := by
  induction src with
  | nil => intro d _ _; simp [defaults]
  | cons kv rest ih =>
    intro d hnd hfresh
    obtain ⟨k, v⟩ := kv
    simp only [List.map_cons, List.nodup_cons] at hnd
    have hk : k ∉ d.map Prod.fst := hfresh (k, v) (by simp)
    have hstep : defaultsStep d (k, v) = d ++ [(k, v)] := by
      rw [defaultsStep_of_absent d (k, v) (getProp_of_not_mem d k hk)]
      exact setProp_of_not_mem d k v hk
    have htail : defaults (d ++ [(k, v)]) rest = (d ++ [(k, v)]) ++ rest := by
      refine ih (d ++ [(k, v)]) hnd.2 ?_
      intro kv' hkv'
      simp only [List.map_append, List.mem_append, not_or]
      refine ⟨hfresh kv' (by simp [hkv']), ?_⟩
      simp only [List.map_cons, List.map_nil, List.mem_singleton]
      intro hk'
      exact hnd.1 (hk' ▸ (List.mem_map.mpr ⟨kv', hkv', rfl⟩))
    calc defaults d ((k, v) :: rest)
        = defaults (defaultsStep d (k, v)) rest := by simp [defaults]
      _ = defaults (d ++ [(k, v)]) rest := by rw [hstep]
      _ = (d ++ [(k, v)]) ++ rest := htail
      _ = d ++ ((k, v) :: rest) := by simp

/-- A successful fail-fast map preserves the length. -/
theorem mapExcept_ok_length (f : JSVal → Except PError JSVal) :
    ∀ xs ys, mapExcept f xs = .ok ys → ys.length = xs.length := by
  intro xs
  induction xs with
  | nil =>
    intro ys h
    obtain rfl : ([] : List JSVal) = ys := by simpa [mapExcept] using h
    rfl
  | cons x xs ih =>
    intro ys h
    simp only [mapExcept] at h
    rcases hx : f x with e | y
    · simp [hx] at h
    · simp only [hx] at h
      rcases hm : mapExcept f xs with e2 | zs
      · simp [hm] at h
      · simp only [hm] at h
        obtain rfl : y :: zs = ys := by simpa using h
        simp [ih zs hm]

/-- A successful fail-fast map is pointwise application in order. -/
theorem mapExcept_ok_get (f : JSVal → Except PError JSVal) :
    ∀ xs ys, mapExcept f xs = .ok ys →
      ∀ i (hi : i < xs.length) (hi' : i < ys.length),
        f (xs.get ⟨i, hi⟩) = .ok (ys.get ⟨i, hi'⟩) := by
  intro xs
  induction xs with
  | nil => intro ys h i hi hi'; simp at hi
  | cons x xs ih =>
    intro ys h i hi hi'
    simp only [mapExcept] at h
    rcases hx : f x with e | y
    · simp [hx] at h
    · simp only [hx] at h
      rcases hm : mapExcept f xs with e2 | zs
      · simp [hm] at h
      · simp only [hm] at h
        obtain rfl : y :: zs = ys := by simpa using h
        cases i with
        | zero => exact hx
        | succ j => exact ih zs hm j (Nat.lt_of_succ_lt_succ hi) (Nat.lt_of_succ_lt_succ hi')

/-- A failing fail-fast map fails with the error of the first failing
element, all earlier elements having succeeded (no partial result exists). -/
theorem mapExcept_error_first (f : JSVal → Except PError JSVal) :
    ∀ xs e, mapExcept f xs = .error e →
      ∃ i, ∃ hi : i < xs.length, f (xs.get ⟨i, hi⟩) = .error e
        ∧ ∀ j (hj : j < xs.length), j < i → ∃ y, f (xs.get ⟨j, hj⟩) = .ok y := by
  intro xs
  induction xs with
  | nil => intro e h; simp [mapExcept] at h
  | cons x xs ih =>
    intro e h
    simp only [mapExcept] at h
    rcases hx : f x with e' | y
    · simp only [hx] at h
      obtain rfl : e' = e := by simpa using h
      exact ⟨0, by simp, hx, fun j hj hj0 => absurd hj0 (Nat.not_lt_zero j)⟩
    · simp only [hx] at h
      rcases hm : mapExcept f xs with e' | zs
      · simp only [hm] at h
        obtain rfl : e' = e := by simpa using h
        obtain ⟨i, hi, hfi, hprev⟩ := ih e' hm
        refine ⟨i + 1, Nat.succ_lt_succ hi, hfi, ?_⟩
        intro j hj hji
        cases j with
        | zero => exact ⟨y, hx⟩
        | succ j' => exact hprev j' (Nat.lt_of_succ_lt_succ hj) (Nat.lt_of_succ_lt_succ hji)
      · simp [hm] at h

/-! ### Claim theorems -/

/-- C4: for a Parser with no default, applying it to the absent value fails
with MissingRequiredValue when `required` is true and returns absent when
`required` is false; the transform is not consulted (the result does not
depend on `p.func`). -/
theorem c4_absent_no_default (p : Parser) (hd : p.default = .undefined) :
    (p.required = true → p.call .undefined = .error .missingRequired)
    ∧ (p.required = false → p.call .undefined = .ok .undefined) := by
  have h0 : p.call .undefined = p.callAfterDefault p.default := rfl
  rw [h0, hd]
  constructor <;> intro h <;> simp [Parser.callAfterDefault, h]

/-- Witness for C4 at concrete parsers. -/
theorem c4_absent_no_default_witness :
    (Parser.mk succNum true .undefined).call .undefined = .error .missingRequired
    ∧ (Parser.mk succNum false .undefined).call .undefined = .ok .undefined :=
  ⟨(c4_absent_no_default (Parser.mk succNum true .undefined) rfl).1 rfl,
   (c4_absent_no_default (Parser.mk succNum false .undefined) rfl).2 rfl⟩

/-- C7 (evidence of the code bug): `parse` applied to an already-built
Parser does not return it unchanged and does not ignore the options.
Because `schema instanceof Parser` is always false (see `parse`), compiling
the optional identity parser with `required = true` yields a fresh wrapper
around its `call`, with the flag applied: the wrapper rejects the absent
value that the original parser accepted, and the two parsers differ. -/
theorem c7_parse_rewraps_with_options :
    parse (.parser (Parser.mk idF false .undefined)) (Options.mk true .undefined)
        = .ok (Parser.mk (Parser.mk idF false .undefined).call true .undefined)
    ∧ (Parser.mk (Parser.mk idF false .undefined).call true .undefined).call .undefined
        = .error .missingRequired
    ∧ (Parser.mk idF false .undefined).call .undefined = .ok .undefined
    ∧ Parser.mk (Parser.mk idF false .undefined).call true .undefined
        ≠ Parser.mk idF false .undefined := by
  refine ⟨rfl, rfl, rfl, ?_⟩
  intro h
  have hreq := congrArg Parser.required h
  simp at hreq

/-- C9: the Parsers produced by the combinators `parse`, `validate` and `or`
are all built with `required = false` and no default, so each of them maps
the absent value to absent, whatever the receiver and the supplied function
were. -/
theorem c9_combinators_not_required_no_default (p : Parser)
    (g : JSVal → Except PError JSVal) (pred : JSVal → Bool) :
    ((p.parse g).required = false ∧ (p.parse g).default = .undefined
      ∧ (p.parse g).call .undefined = .ok .undefined)
    ∧ ((p.validate pred).required = false ∧ (p.validate pred).default = .undefined
      ∧ (p.validate pred).call .undefined = .ok .undefined)
    ∧ ((p.or g).required = false ∧ (p.or g).default = .undefined
      ∧ (p.or g).call .undefined = .ok .undefined) :=
  ⟨⟨rfl, rfl, rfl⟩, ⟨rfl, rfl, rfl⟩, ⟨rfl, rfl, rfl⟩⟩

/-- C2 (counterexample to the claim as stated): for a required receiver and
the fallback `fun _ => 5`, the input `undefined` makes the receiver fail
with MissingRequiredValue, yet `or` returns absent instead of the fallback's
value. -/
theorem c2_or_counterexample :
    (Parser.mk succNum true .undefined).call .undefined = .error .missingRequired
    ∧ ((Parser.mk succNum true .undefined).or (fun _ => .ok (.num 5))).call .undefined = .ok .undefined
    ∧ (fun _ : JSVal => (.ok (.num 5) : Except PError JSVal)) .undefined = .ok (.num 5)
    ∧ (.ok .undefined : Except PError JSVal) ≠ .ok (.num 5) :=
  ⟨rfl, rfl, rfl, by simp⟩

/-- C2 (amended): on every present input, `p.or g` returns `g` applied to the
original raw value whenever `p` fails (with any error) and returns `p`'s
result whenever `p` succeeds (independently of `g`); on the absent input it
returns absent regardless of `p` and `g`. -/
theorem c2_or_fallback (p : Parser) (g : JSVal → Except PError JSVal) (x : JSVal)
    (hx : x ≠ .undefined) :
    (∀ e, p.call x = .error e → (p.or g).call x = g x)
    ∧ (∀ r, p.call x = .ok r → (p.or g).call x = .ok r)
    ∧ (p.or g).call .undefined = .ok .undefined := by
  refine ⟨?_, ?_, rfl⟩ <;> intro a h <;>
    rw [Parser.call_of_ne_undef _ _ hx] <;> simp [Parser.or, h]

/-- Witness for C2 (amended) at a present input on which the receiver fails. -/
theorem c2_or_fallback_witness :
    ((Parser.mk (fun _ => .error (.leaf "no")) false .undefined).or
        (fun _ => .ok (.num 5))).call (.num 1) = .ok (.num 5) :=
  (c2_or_fallback (Parser.mk (fun _ => .error (.leaf "no")) false .undefined)
    (fun _ => .ok (.num 5)) (.num 1) (by simp)).1 (.leaf "no") rfl

/-- C3 (counterexample to the claim as stated): with the non-idempotent
transform `succNum` and raw default `0`, the cached default is `t(0) = 1`,
but applying the parser to the absent value gives `t(t(0)) = 2`, not
`t(0)`. -/
theorem c3_cached_default_counterexample :
    Parser.make succNum (Options.mk false (.num 0)) = .ok (Parser.mk succNum false (.num 1))
    ∧ succNum (.num 0) = .ok (.num 1)
    ∧ (Parser.mk succNum false (.num 1)).call .undefined = .ok (.num 2)
    ∧ (.ok (.num 2) : Except PError JSVal) ≠ .ok (.num 1) :=
  ⟨rfl, rfl, rfl, by simp⟩

/-- C3 (amended): the cached default is `t(D)`, computed at construction (a
transform that fails on the raw default fails the constructor itself), and a
call on the absent value applies the transform to the cached default — it
returns `t(t(D))`, not `t(D)`. -/
theorem c3_cached_default_retransformed
    (t : JSVal → Except PError JSVal) (req : Bool) (D d : JSVal)
    (hD : D ≠ .undefined) (hd : t D = .ok d) :
    Parser.make t (Options.mk req D) = .ok (Parser.mk t req d)
    ∧ (d ≠ .undefined → (Parser.mk t req d).call .undefined = t d)
    ∧ (∀ t2 : JSVal → Except PError JSVal, ∀ D2 e, D2 ≠ .undefined → t2 D2 = .error e →
        Parser.make t2 (Options.mk req D2) = .error e) := by
  refine ⟨?_, ?_, ?_⟩
  · cases D
    case undefined => exact absurd rfl hD
    all_goals simp [Parser.make, hd]
  · intro hdne
    cases d
    case undefined => exact absurd rfl hdne
    all_goals rfl
  · intro t2 D2 e hD2 he
    cases D2
    case undefined => exact absurd rfl hD2
    all_goals simp [Parser.make, he]

/-- Witness for C3 (amended) at the concrete transform `succNum`. -/
theorem c3_cached_default_retransformed_witness :
    Parser.make succNum (Options.mk true (.num 3)) = .ok (Parser.mk succNum true (.num 4))
    ∧ (Parser.mk succNum true (.num 4)).call .undefined = succNum (.num 4) := by
  have h := c3_cached_default_retransformed succNum true (.num 3) (.num 4) (by simp) rfl
  exact ⟨h.1, h.2.1 (by simp)⟩

/-- C8 (counterexample to the claim as stated): with the transform
`fun _ => 3` (which succeeds on every input, `undefined` included) and the
always-true predicate, the claim predicts the result `3` at input
`undefined`, but the validating parser returns absent without running the
transform. -/
theorem c8_validate_counterexample :
    (fun _ : JSVal => (.ok (.num 3) : Except PError JSVal)) .undefined = .ok (.num 3)
    ∧ (fun _ : JSVal => true) (JSVal.num 3) = true
    ∧ ((Parser.mk (fun _ => (.ok (.num 3) : Except PError JSVal)) false .undefined).validate
        (fun _ => true)).call .undefined = .ok .undefined
    ∧ (.ok .undefined : Except PError JSVal) ≠ .ok (.num 3) :=
  ⟨rfl, rfl, rfl, by simp⟩

/-- C8 (amended): on every present input `x` on which the compiled leaf
transform succeeds with `y`, `compile(f).validate(pred)` fails with
ValidationFailed when `pred y` is falsy and returns `y` unchanged
otherwise. -/
theorem c8_validate_pred (f : JSVal → Except PError JSVal) (pred : JSVal → Bool)
    (x y : JSVal) (hx : x ≠ .undefined) (hf : f x = .ok y) :
    parse (.fn f) {} = .ok (Parser.mk f false .undefined)
    ∧ (pred y = false →
        ((Parser.mk f false .undefined).validate pred).call x = .error .validationFailed)
    ∧ (pred y = true →
        ((Parser.mk f false .undefined).validate pred).call x = .ok y) := by
  have hcall : (Parser.mk f false .undefined).call x = f x :=
    Parser.call_of_ne_undef _ _ hx
  refine ⟨rfl, ?_, ?_⟩ <;> intro h <;>
    rw [Parser.call_of_ne_undef _ _ hx] <;> simp [Parser.validate, hcall, hf, h]

/-- Witness for C8 (amended) at the concrete transform `succNum`. -/
theorem c8_validate_pred_witness :
    ((Parser.mk succNum false .undefined).validate (fun _ => true)).call (.num 1)
      = .ok (.num 2) :=
  (c8_validate_pred succNum (fun _ => true) (.num 1) (.num 2) (by simp) rfl).2.2 rfl

/-- C1 (counterexample to the claim as stated): the ObjectParser compiled
from the schema `{a: identity}` (field optional, no default) applied to the
input `{b: 2}` does not return the input unchanged — the output gains the
own key `a` bound to the absent value. -/
theorem c1_absent_field_counterexample :
    parse (.obj [("a", .fn idF)]) {}
        = .ok (Parser.mk (objTransform [("a", Parser.mk idF false .undefined)]) false .undefined)
    ∧ (Parser.mk idF false .undefined).required = false
    ∧ (Parser.mk idF false .undefined).default = .undefined
    ∧ (Parser.mk (objTransform [("a", Parser.mk idF false .undefined)]) false .undefined).call
        (.obj [("b", .num 2)])
        = .ok (.obj [("a", .undefined), ("b", .num 2)])
    ∧ JSVal.obj [("a", .undefined), ("b", .num 2)] ≠ JSVal.obj [("b", .num 2)] := by
  refine ⟨rfl, rfl, rfl, rfl, ?_⟩
  intro hcontra
  simp at hcontra

/-- C1 (amended): for a schema `{a: f}` with `f` optional and defaultless and
an input object that lacks the key `a`, the ObjectParser keeps every input
field unchanged but adds the declared key `a` as an explicit own property
bound to the absent value; reading `a` from the output still yields absent. -/
theorem c1_absent_field_added_as_undef (f : Parser) (rest : List (String × JSVal))
    (hreq : f.required = false) (hdef : f.default = .undefined)
    (ha : "a" ∉ rest.map Prod.fst) (hnd : (rest.map Prod.fst).Nodup) :
    (Parser.mk (objTransform [("a", f)]) false .undefined).call (.obj rest)
        = .ok (.obj (("a", .undefined) :: rest))
    ∧ getProp (("a", .undefined) :: rest) "a" = .undefined := by
  refine ⟨?_, by simp [getProp]⟩
  have hstep : (Parser.mk (objTransform [("a", f)]) false .undefined).call (.obj rest)
      = objTransform [("a", f)] (.obj rest) := rfl
  have hget : getProp rest "a" = .undefined := getProp_of_not_mem rest "a" ha
  have hcallf : f.call .undefined = .ok .undefined := by
    have h0 : f.call .undefined = f.callAfterDefault f.default := rfl
    rw [h0, hdef]
    simp [Parser.callAfterDefault, hreq]
  have hmerge : defaults [("a", .undefined)] rest = [("a", .undefined)] ++ rest := by
    refine defaults_of_fresh rest [("a", .undefined)] hnd ?_
    intro kv hkv
    simp only [List.map_cons, List.map_nil, List.mem_singleton]
    intro hk
    exact ha (hk ▸ (List.mem_map.mpr ⟨kv, hkv, rfl⟩))
  rw [hstep]
  simp [objTransform, mapValuesExcept, hget, hcallf, hmerge]

/-- Witness for C1 (amended) at the identity leaf and input `{b: 2}`. -/
theorem c1_absent_field_added_as_undef_witness :
    (Parser.mk (objTransform [("a", Parser.mk idF false .undefined)]) false .undefined).call
        (.obj [("c", .num 7)])
      = .ok (.obj [("a", .undefined), ("c", .num 7)]) :=
  (c1_absent_field_added_as_undef (Parser.mk idF false .undefined) [("c", .num 7)]
    rfl rfl (by simp) (by simp)).1

/-- C6: for a schema `{a: f}` and an input object with the declared field
`a` first and any undeclared fields after it, every declared field whose
parse result is present is overwritten with that result and every undeclared
field is kept untouched; the constructor wrapping is also recorded. -/
theorem c6_declared_overwritten_undeclared_untouched (f : Parser) (x v : JSVal)
    (rest : List (String × JSVal))
    (hv : f.call x = .ok v) (hne : v ≠ .undefined)
    (ha : "a" ∉ rest.map Prod.fst) (hnd : (rest.map Prod.fst).Nodup) :
    ObjectParser.make [("a", f)] {}
        = .ok (Parser.mk (objTransform [("a", f)]) false .undefined)
    ∧ (Parser.mk (objTransform [("a", f)]) false .undefined).call (.obj (("a", x) :: rest))
        = .ok (.obj (("a", v) :: rest)) := by
  refine ⟨rfl, ?_⟩
  have hstep : (Parser.mk (objTransform [("a", f)]) false .undefined).call (.obj (("a", x) :: rest))
      = objTransform [("a", f)] (.obj (("a", x) :: rest)) := rfl
  have hget : getProp (("a", x) :: rest) "a" = x := by simp [getProp]
  have hskip : defaultsStep [("a", v)] ("a", x) = [("a", v)] := by
    refine defaultsStep_of_present [("a", v)] ("a", x) ?_
    simpa [getProp] using hne
  have hmerge : defaults [("a", v)] (("a", x) :: rest) = [("a", v)] ++ rest := by
    have h1 : defaults [("a", v)] (("a", x) :: rest)
        = defaults (defaultsStep [("a", v)] ("a", x)) rest := by simp [defaults]
    rw [h1, hskip]
    refine defaults_of_fresh rest [("a", v)] hnd ?_
    intro kv hkv
    simp only [List.map_cons, List.map_nil, List.mem_singleton]
    intro hk
    exact ha (hk ▸ (List.mem_map.mpr ⟨kv, hkv, rfl⟩))
  rw [hstep]
  simp [objTransform, mapValuesExcept, hget, hv, hmerge]

/-- C5 (counterexample to the claim as stated): the absent value is not a
sequence, yet the ArrayParser compiled from `[identity]` maps it to absent
instead of failing with TypeMismatch (the wrapping parser is optional with
no default). -/
theorem c5_array_absent_counterexample :
    parse (.arr (.fn idF)) {}
        = .ok (Parser.mk (arrTransform (Parser.mk idF false .undefined)) false .undefined)
    ∧ (Parser.mk (arrTransform (Parser.mk idF false .undefined)) false .undefined).call .undefined
        = .ok .undefined
    ∧ (.ok .undefined : Except PError JSVal) ≠ .error .typeMismatch :=
  ⟨rfl, rfl, by simp⟩

/-- C5 (amended): `compile([f])` rejects every present non-sequence input
with TypeMismatch (the absent input instead yields absent); on a sequence it
returns a same-length sequence whose entries are the element parser applied
in order, and a failing element aborts the whole parse with that element's
error, every earlier element having succeeded and no partial result being
returned. -/
theorem c5_array_elementwise (s : Schema) (ep P : Parser)
    (hs : parse s {} = .ok ep) (hP : parse (.arr s) {} = .ok P) :
    P = Parser.mk (arrTransform ep) false .undefined
    ∧ (∀ v : JSVal, v ≠ .undefined → (∀ xs, v ≠ .arr xs) → P.call v = .error .typeMismatch)
    ∧ (∀ xs ys, mapExcept ep.call xs = .ok ys →
        P.call (.arr xs) = .ok (.arr ys)
        ∧ ys.length = xs.length
        ∧ ∀ i (hi : i < xs.length) (hi' : i < ys.length),
            ep.call (xs.get ⟨i, hi⟩) = .ok (ys.get ⟨i, hi'⟩))
    ∧ (∀ xs e, mapExcept ep.call xs = .error e →
        P.call (.arr xs) = .error e
        ∧ ∃ i, ∃ hi : i < xs.length, ep.call (xs.get ⟨i, hi⟩) = .error e
            ∧ ∀ j (hj : j < xs.length), j < i → ∃ y, ep.call (xs.get ⟨j, hj⟩) = .ok y) := by
  have hP' : P = Parser.mk (arrTransform ep) false .undefined := by
    have h1 : parse (.arr s) {} = (match parse s {} with
        | .error e => .error e
        | .ok ep2 => ArrayParser.make ep2 {}) := rfl
    rw [h1, hs] at hP
    exact (Except.ok.inj hP).symm
  subst hP'
  refine ⟨rfl, ?_, ?_, ?_⟩
  · intro v hv hvarr
    rw [Parser.call_of_ne_undef _ _ hv]
    cases v
    case undefined => exact absurd rfl hv
    case arr xs => exact absurd rfl (hvarr xs)
    all_goals rfl
  · intro xs ys h
    have hc : (Parser.mk (arrTransform ep) false .undefined).call (.arr xs)
        = arrTransform ep (.arr xs) := rfl
    refine ⟨?_, mapExcept_ok_length ep.call xs ys h, mapExcept_ok_get ep.call xs ys h⟩
    rw [hc]
    simp [arrTransform, h]
  · intro xs e h
    have hc : (Parser.mk (arrTransform ep) false .undefined).call (.arr xs)
        = arrTransform ep (.arr xs) := rfl
    refine ⟨?_, mapExcept_error_first ep.call xs e h⟩
    rw [hc]
    simp [arrTransform, h]

/-- Witness for C5 (amended): a present non-sequence is rejected and a
two-element sequence is mapped in order. -/
theorem c5_array_elementwise_witness :
    (Parser.mk (arrTransform (Parser.mk succNum false .undefined)) false .undefined).call
        (.str "conflux") = .error .typeMismatch
    ∧ (Parser.mk (arrTransform (Parser.mk succNum false .undefined)) false .undefined).call
        (.arr [.num 1, .num 2]) = .ok (.arr [.num 2, .num 3]) := by
  have h := c5_array_elementwise (.fn succNum) (Parser.mk succNum false .undefined)
      (Parser.mk (arrTransform (Parser.mk succNum false .undefined)) false .undefined) rfl rfl
  exact ⟨h.2.1 (.str "conflux") (by simp) (fun xs => by simp),
    (h.2.2.1 [.num 1, .num 2] [.num 2, .num 3] rfl).1⟩

/-- Witness for C6 at the concrete leaf `succNum` and input `{a: 1, b: 2}`. -/
theorem c6_declared_overwritten_undeclared_untouched_witness :
    (Parser.mk (objTransform [("a", Parser.mk succNum false .undefined)]) false .undefined).call
        (.obj [("a", .num 1), ("b", .num 2)])
      = .ok (.obj [("a", .num 2), ("b", .num 2)]) :=
  (c6_declared_overwritten_undeclared_untouched (Parser.mk succNum false .undefined)
    (.num 1) (.num 2) [("b", .num 2)] rfl (by simp) (by simp) (by simp)).2

/-- Encoding the value of a lowercase hex digit gives the digit back. -/
theorem hexChar_hexVal (c : Char) (h : isHexDigit c = true) : hexChar (hexVal c) = c := by
  have hall : ∀ x ∈ hexDigitList, hexChar (hexVal x) = x := by decide
  exact hall c (of_decide_eq_true h)

/-- The value of a lowercase hex digit is a nibble. -/
theorem hexVal_lt_16 (c : Char) (h : isHexDigit c = true) : hexVal c < 16 := by
  have hall : ∀ x ∈ hexDigitList, hexVal x < 16 := by decide
  exact hall c (of_decide_eq_true h)

/-- Re-encoding the bytes decoded from an even run of lowercase hex digits
gives the original digits back. -/
theorem bytesToHexChars_hexPairsToBytes :
    ∀ l : List Char, isHexPairs l = true → bytesToHexChars (hexPairsToBytes l) = l
  | [], _ => rfl
  | [c], h => by simp [isHexPairs] at h
  | c1 :: c2 :: rest, h => by
    simp only [isHexPairs, Bool.and_eq_true] at h
    obtain ⟨⟨h1, h2⟩, h3⟩ := h
    have hv2 := hexVal_lt_16 c2 h2
    have e1 : (16 * hexVal c1 + hexVal c2) / 16 = hexVal c1 := by omega
    have e2 : (16 * hexVal c1 + hexVal c2) % 16 = hexVal c2 := by omega
    simp [hexPairsToBytes, bytesToHexChars, e1, e2, hexChar_hexVal c1 h1,
      hexChar_hexVal c2 h2, bytesToHexChars_hexPairsToBytes rest h3]

/-- C10: on a canonical hex string `h` (matching `^0x([0-9a-f][0-9a-f])*$`),
`Hex` is the identity (hence idempotent), `Hex.toBuffer` decodes the digit
pairs after `0x`, and encoding that buffer back through `Hex` returns `h`. -/
theorem c10_hex_identity_and_roundtrip (h : String) (hh : Hex.isHex h = true) :
    Hex (.str h) = .ok h
    ∧ Hex.toBuffer h = .ok (hexPairsToBytes (h.data.drop 2))
    ∧ Hex (.buf (hexPairsToBytes (h.data.drop 2))) = .ok h := by
  refine ⟨by simp [Hex, hh], by simp [Hex.toBuffer, hh], ?_⟩
  rcases hd : h.data with _ | ⟨c1, tail⟩
  · simp [Hex.isHex, hd] at hh
  rcases tail with _ | ⟨c2, rest⟩
  · simp [Hex.isHex, hd] at hh
  have hsplit : (c1 = '0' ∧ c2 = 'x') ∧ isHexPairs rest = true := by
    simpa [Hex.isHex, hd, Bool.and_eq_true] using hh
  obtain ⟨⟨rfl, rfl⟩, hpairs⟩ := hsplit
  have hdrop : List.drop 2 ('0' :: 'x' :: rest) = rest := rfl
  rw [hdrop]
  have henc : bytesToHexChars (hexPairsToBytes rest) = rest :=
    bytesToHexChars_hexPairsToBytes rest hpairs
  have hstr : "0x" ++ String.mk (bytesToHexChars (hexPairsToBytes rest)) = h := by
    refine String.ext ?_
    rw [String.data_append, henc, hd]
    rfl
  calc Hex (.buf (hexPairsToBytes rest))
      = .ok ("0x" ++ String.mk (bytesToHexChars (hexPairsToBytes rest))) := rfl
    _ = .ok h := by rw [hstr]

/-- Witness for C10 at the concrete canonical string `"0x0102"`. -/
theorem c10_hex_identity_and_roundtrip_witness :
    Hex (.str "0x0102") = .ok "0x0102"
    ∧ Hex.toBuffer "0x0102" = .ok (hexPairsToBytes ("0x0102".data.drop 2))
    ∧ Hex (.buf (hexPairsToBytes ("0x0102".data.drop 2))) = .ok "0x0102" :=
  c10_hex_identity_and_roundtrip "0x0102" rfl

end Conflux
